import Mathlib

/-!
# Verification of the UK Household Nutrition visualisation engine

This file gives a shallow embedding of the interactive multi-line chart
engine in `src/script.js` and proves the specification claims about it.

Number model: JavaScript numbers are modelled as `Option ℚ`, where `none`
stands for the NaN / undefined sentinel and `some q` for an ordinary
finite number.  All arithmetic helpers propagate `none` the way JavaScript
propagates NaN.  The d3 library calls made by the script (linear scales,
min/max with NaN skipping, the ordinal colour scale, the nice rounding of
a linear domain, and the Delaunay nearest-point query) are embedded by
their behaviour; the Delaunay query, whose source is an external
dependency, is modelled from the spec contract (see `delaunayFind`).
-/

namespace NutriViz

/-- A JavaScript number: `none` is the NaN / undefined sentinel. -/
abbrev JSNum := Option ℚ

/-- JavaScript strict comparison a < b: false whenever either side is NaN. -/
def jsLtB : JSNum → JSNum → Bool
  | some a, some b => decide (a < b)
  | _, _ => false

/-- Math.min of two values: NaN-propagating. -/
def jsMin2 : JSNum → JSNum → JSNum
  | some a, some b => some (min a b)
  | _, _ => none

/-- Subtraction of a plain number from a JavaScript number. -/
def jsSub : JSNum → ℚ → JSNum
  | some a, q => some (a - q)
  | none, _ => none

/-- One normalized data record (script.js lines 60-65): a nutrient series
for one region, with one value per year column. -/
structure Record where
  nutrientType : String
  nutrient : String
  region : String
  values : List JSNum
deriving DecidableEq

/-- The filter state held by the page (script.js lines 7-10). -/
structure Filters where
  nutrientType : String
  regions : List String
deriving DecidableEq

/-- The fixed two-colour palette (script.js line 1). -/
def COLOR_SCHEME : List String := ["#1f77b4", "#ff7f0e"]

/-! ## Table normalizer (script.js lines 49-73) -/

/-- A raw CSV row: the three descriptive columns and the year cells,
aligned with the year column list; a missing cell is `none`. -/
structure RawRow where
  rowType : String
  nutrient : String
  region : String
  cells : List (Option String)
deriving DecidableEq

/-- Value of a digit string, or `none` if a non-digit occurs. -/
def digitsVal (cs : List Char) : Option ℕ :=
  cs.foldl
    (fun acc c =>
      match acc with
      | none => none
      | some n => if c.isDigit then some (n * 10 + (c.toNat - 48)) else none)
    (some 0)

/-- JavaScript numeric coercion of a string (the unary plus on a CSV cell,
script.js line 64): trimmed empty string is 0, an optional sign followed by
decimal digits with an optional fractional part parses to that value, and
anything else is NaN. -/
def jsStringToNumber (s : String) : JSNum :=
  let t := s.trim
  if t = "" then some 0
  else
    let (sign, body) :=
      match t.toList with
      | '-' :: rest => ((-1 : ℚ), rest)
      | '+' :: rest => ((1 : ℚ), rest)
      | cs => ((1 : ℚ), cs)
    match body.splitOn '.' with
    | [ip] =>
      if ip = [] then none
      else
        match digitsVal ip with
        | some n => some (sign * n)
        | none => none
    | [ip, fp] =>
      if ip = [] ∧ fp = [] then none
      else
        match digitsVal ip, digitsVal fp with
        | some n, some f =>
          some (sign * ((n : ℚ) + (f : ℚ) / (10 : ℚ) ^ fp.length))
        | _, _ => none
    | _ => none

/-- Coercion of a possibly missing cell: an absent field is undefined and
coerces to NaN. -/
def jsToNumber : Option String → JSNum
  | none => none
  | some s => jsStringToNumber s

/-- The record list produced by processData (script.js lines 60-65): each
row keeps its three descriptive fields and coerces each year cell to a
number, the NaN sentinel on failure. -/
def processDataRecords (years : List String) (csv : List RawRow) : List Record :=
  csv.map (fun d =>
    { nutrientType := d.rowType
      nutrient := d.nutrient
      region := d.region
      values := (List.range years.length).map (fun i => jsToNumber (d.cells.getD i none)) })

/-! ## Filter evaluator (script.js lines 78-84) -/

/-- filterData: keep the records whose nutrient type equals the selected
one and whose region is among the selected regions. -/
def filterData (data : List Record) (filters : Filters) : List Record :=
  data.filter (fun d =>
    if filters.nutrientType ≠ d.nutrientType then false
    else if d.region ∉ filters.regions then false
    else true)

/-! ## Chart constants and scales (script.js lines 204-240) -/

/-- Fixed chart inputs: the container width read once, and the year domain
(the spec guarantees year labels are numeric-coercible, so they are kept
as rationals here). -/
structure ChartStatic where
  width : ℚ
  years : List ℚ
deriving DecidableEq

def marginTop : ℚ := 30
def marginRight : ℚ := 180
def marginBottom : ℚ := 30
def marginLeft : ℚ := 30
def chartHeight : ℚ := 600

/-- d3.scaleLinear on plain rationals: interpolate the range by the
normalized position in the domain; a degenerate domain maps everything to
the middle of the range, as d3 does. -/
def linearScaleQ (d0 d1 r0 r1 v : ℚ) : ℚ :=
  if d1 - d0 = 0 then r0 + (r1 - r0) / 2
  else r0 + (v - d0) / (d1 - d0) * (r1 - r0)

/-- A d3 linear scale lifted to JavaScript numbers: NaN anywhere in the
domain or input yields NaN. -/
def jsLinear (dom : JSNum × JSNum) (r0 r1 : ℚ) (v : JSNum) : JSNum :=
  match dom, v with
  | (some a, some b), some x => some (linearScaleQ a b r0 r1 x)
  | _, _ => none

/-- The x scale domain: first and last year (undefined, hence NaN, when the
year list is empty). -/
def xDomain (st : ChartStatic) : JSNum × JSNum :=
  (st.years.head?, st.years.getLast?)

/-- xScale (script.js lines 218-221). -/
def xScaleJS (st : ChartStatic) (v : JSNum) : JSNum :=
  jsLinear (xDomain st) marginLeft (st.width - marginRight) v

/-- yScale (script.js line 223) for a given current domain. -/
def yScaleJS (dom : JSNum × JSNum) (v : JSNum) : JSNum :=
  jsLinear dom (chartHeight - marginBottom) marginTop v

/-! ## The d3 linear nice rounding, over exact rationals -/

/-- Powers of ten as rationals, for negative exponents too. -/
def pow10z (z : ℤ) : ℚ := (10 : ℚ) ^ z

/-- Floor of the base-10 logarithm of a positive rational. -/
def qlog10floor (q : ℚ) : ℤ :=
  if 1 ≤ q then (Nat.log 10 ⌊q⌋.toNat : ℤ)
  else if 0 < q then
    let r := q⁻¹
    let k := Nat.log 10 ⌊r⌋.toNat
    if pow10z k = r then -(k : ℤ) else -((k : ℤ) + 1)
  else 0

/-- d3.tickIncrement: the tick step for a span and count, as a rational;
negative results encode reciprocal steps, exactly as in d3. The square
root thresholds of d3 are compared by squaring, which is exact. -/
def tickIncrement (start stop count : ℚ) : ℚ :=
  let step := (stop - start) / max 0 count
  if 0 < step then
    let power := qlog10floor step
    let error := step / pow10z power
    let f : ℚ :=
      if 50 ≤ error ^ 2 then 10
      else if 10 ≤ error ^ 2 then 5
      else if 2 ≤ error ^ 2 then 2
      else 1
    if 0 ≤ power then f * pow10z power else -(pow10z (-power)) / f
  else 0

/-- The iteration inside d3 linear nice: recompute the step until it
stabilizes, expanding the bounds to step multiples; d3 leaves the domain
unchanged when the iteration budget runs out. -/
def niceRun : ℕ → Option ℚ → ℚ → ℚ → Option (ℚ × ℚ)
  | 0, _, _, _ => none
  | fuel + 1, prestep, start, stop =>
    let step := tickIncrement start stop 10
    if prestep = some step then some (start, stop)
    else if 0 < step then
      niceRun fuel (some step) ((⌊start / step⌋ : ℚ) * step) ((⌈stop / step⌉ : ℚ) * step)
    else if step < 0 then
      niceRun fuel (some step) ((⌈start * step⌉ : ℚ) / step) ((⌊stop * step⌋ : ℚ) / step)
    else none

/-- d3 nice on a finite domain; a degenerate domain is left unchanged (in
d3 the first step diverges and the loop breaks without committing). -/
def niceDomain (p : ℚ × ℚ) : ℚ × ℚ :=
  let (a, b) := if p.2 < p.1 then (p.2, p.1) else p
  if a = b then p
  else
    match niceRun 10 none a b with
    | some r => if p.2 < p.1 then (r.2, r.1) else r
    | none => p

/-- nice lifted to JavaScript numbers: with NaN in the domain the loop
breaks immediately and the domain is unchanged. -/
def niceDomainJS : JSNum × JSNum → JSNum × JSNum
  | (some a, some b) =>
    let r := niceDomain (a, b)
    (some r.1, some r.2)
  | d => d

/-! ## d3 min and max with NaN skipping -/

/-- d3.min: least comparable value, undefined when there is none. -/
def d3Min (l : List JSNum) : JSNum :=
  match l.filterMap id with
  | [] => none
  | x :: xs => some (xs.foldl min x)

/-- d3.max: greatest comparable value, undefined when there is none. -/
def d3Max (l : List JSNum) : JSNum :=
  match l.filterMap id with
  | [] => none
  | x :: xs => some (xs.foldl max x)

/-- The y-domain computed by the inner processData before nice rounding
(script.js lines 278-283): lower bound Math.min(90, least visible value),
upper bound the greatest visible value. -/
def preNiceDomain (data : List Record) : JSNum × JSNum :=
  (jsMin2 (some 90) (d3Min (data.map (fun d => d3Min d.values))),
   d3Max (data.map (fun d => d3Max d.values)))

/-! ## Chart state -/

/-- The JavaScript value of the iDelaunay closure variable: null (also
standing for its initial undefined), NaN, or a point index. -/
inductive JSIdx where
  | inull
  | inan
  | inum (k : ℕ)
deriving DecidableEq

/-- One tooltip dot in the overlay (script.js lines 412-441). -/
structure Dot where
  region : String
  nutrient : String
  x : JSNum
  y : JSNum
  text : JSNum
  fill : String
deriving DecidableEq

/-- The mutable closure state of renderChart: the current visible data,
the current y domain and colour domain, the flattened samples weighted by
the Delaunay index, the last match hint, and the overlay DOM state (dot
group visibility, dots, and the per-line opacity attribute, none meaning
the attribute was never set). -/
structure ChartState where
  data : List Record
  yDomain : JSNum × JSNum
  regions : List String
  flatData : List (JSNum × JSNum × String)
  iDelaunay : JSIdx
  dotsVisible : Bool
  dots : List Dot
  lineOpacity : List ((String × String) × Option ℚ)
deriving DecidableEq

/-- State of the chart right after construction, before the first
updateData call. -/
def initialState : ChartState :=
  { data := []
    yDomain := (some 0, some 1)
    regions := []
    flatData := []
    iDelaunay := JSIdx.inull
    dotsVisible := false
    dots := []
    lineOpacity := [] }

/-- First-appearance deduplication, the spread of a Set in the source. -/
def uniqueFirst : List String → List String :=
  fun l => l.foldl (fun acc x => if x ∈ acc then acc else acc ++ [x]) []

/-- The flattened sample list (script.js lines 291-296): for each record,
one entry per value, holding the year at that index (undefined past the
year list), the value and the owning nutrient, in record-major,
year-minor order. -/
def chartFlatten (years : List ℚ) (data : List Record) : List (JSNum × JSNum × String) :=
  (data.map (fun d =>
    (List.range d.values.length).map
      (fun i => ((years.get? i : JSNum), d.values.getD i none, d.nutrient)))).flatten

/-- The d3 ordinal colour scale of the chart (script.js line 225): a
domain position is mapped to the palette cyclically; an unknown value is
assigned the next implicit position (the chart scale sets no explicit
unknown value). -/
def colorAssign (domain : List String) (r : String) : String :=
  match domain.findIdx? (fun x => x = r) with
  | some i => COLOR_SCHEME.getD (i % COLOR_SCHEME.length) ""
  | none => COLOR_SCHEME.getD (domain.length % COLOR_SCHEME.length) ""

/-- Look up the stored opacity attribute of a line by its join key. -/
def lookupOpacity (l : List ((String × String) × Option ℚ)) (k : String × String) : Option ℚ :=
  match l.find? (fun e => e.1 = k) with
  | some e => e.2
  | none => none

/-- The last value of a series (values[values.length - 1]); undefined,
hence NaN downstream, on an empty series. -/
def lastVal (d : Record) : JSNum :=
  match d.values.getLast? with
  | some v => v
  | none => none

/-- Insert a record into a list sorted ascending by last value, after all
records whose last value compares strictly below (d3.ascending). -/
def insertByFinal (a : Record) : List Record → List Record
  | [] => [a]
  | b :: l => if jsLtB (lastVal b) (lastVal a) then b :: insertByFinal a l else a :: b :: l

/-- The selection sort of script.js lines 374-380: stable ascending sort
of the visible series by their final value. -/
def sortByFinal : List Record → List Record
  | [] => []
  | a :: l => insertByFinal a (sortByFinal l)

/-- The label de-collision walk of script.js lines 382-387: the running
label position starts at the chart height and each label is rendered at
Math.min(previous - 12, natural). -/
def labelPass (curr : JSNum) : List JSNum → List JSNum
  | [] => []
  | y :: ys =>
    let c := jsMin2 (jsSub curr 12) y
    c :: labelPass c ys

/-- The rendered end-of-line label positions for a state. -/
def labelYs (s : ChartState) : List JSNum :=
  labelPass (some chartHeight)
    ((sortByFinal s.data).map (fun d => yScaleJS s.yDomain (lastVal d)))

/-- The point sequence handed to the line generator for one series
(script.js lines 236-240): x at the year of each index, y at the value;
a NaN value keeps a NaN y coordinate in the path. -/
def linePathPoints (st : ChartStatic) (dom : JSNum × JSNum) (d : Record) :
    List (JSNum × JSNum) :=
  (List.range d.values.length).map
    (fun i => (xScaleJS st (st.years.get? i), yScaleJS dom (d.values.getD i none)))

/-! ## The nearest-sample query -/

/-- Squared Euclidean distance of two pixel points. -/
def dist2 (q p : ℚ × ℚ) : ℚ := (q.1 - p.1) ^ 2 + (q.2 - p.2) ^ 2

/-- Squared distance from a query to a sample with possibly NaN
coordinates. -/
def dist2JS (q : ℚ × ℚ) (p : JSNum × JSNum) : JSNum :=
  match p with
  | (some x, some y) => some (dist2 q (x, y))
  | _ => none

/-- Scan for the index of the nearest point, keeping the earliest index on
ties (strict improvement only). -/
def findBest (q : ℚ × ℚ) : List (JSNum × JSNum) → ℕ → ℕ → JSNum → ℕ
  | [], _, best, _ => best
  | p :: ps, i, best, dbest =>
    if jsLtB (dist2JS q p) dbest then findBest q ps (i + 1) i (dist2JS q p)
    else findBest q ps (i + 1) best dbest

set_option linter.unusedVariables false in
/-- Modelled from the spec: the d3-delaunay find call (an external
dependency, script.js lines 299-303 and 397) is specified in section 4.3
as a planar nearest-neighbour query whose seed argument is only a
locality hint; any correct implementation satisfies the contract, so it
is embedded as a scan returning the lowest index attaining the least
Euclidean distance, independent of the seed.  On an empty point set the
library returns an invalid index (NaN), embedded as the NaN index. -/
def delaunayFind (pts : List (JSNum × JSNum)) (q : ℚ × ℚ) (seed : ℕ) : JSIdx :=
  match pts with
  | [] => JSIdx.inan
  | p :: ps => JSIdx.inum (findBest q ps 1 0 (dist2JS q p))

/-- The pixel projection of the flattened samples, as handed to
d3.Delaunay.from (script.js lines 299-303). -/
def projPts (st : ChartStatic) (s : ChartState) : List (JSNum × JSNum) :=
  s.flatData.map (fun e => (xScaleJS st e.1, yScaleJS s.yDomain e.2.1))

/-- iDelaunay coerced to a seed: the expression iDelaunay || 0, where null,
undefined and NaN are falsy. -/
def seedOf : JSIdx → ℕ
  | JSIdx.inum k => k
  | _ => 0

/-- JavaScript strict inequality on iDelaunay values: NaN differs from
everything, including itself. -/
def jsNeqIdx : JSIdx → JSIdx → Bool
  | JSIdx.inum m, JSIdx.inum n => decide (m ≠ n)
  | JSIdx.inan, _ => true
  | _, JSIdx.inan => true
  | JSIdx.inull, JSIdx.inull => false
  | JSIdx.inull, JSIdx.inum _ => true
  | JSIdx.inum _, JSIdx.inull => true

/-! ## Event handlers -/

/-- updateData followed by the inner processData and updateChart
(script.js lines 276-308, 311-388, 450-453): recompute the y domain and
nice it, rebuild the colour domain from the visible regions, flatten the
samples, rebuild the Delaunay input, reset the match hint to null, and
re-join the lines (entering lines have no opacity attribute; retained
lines keep theirs).  The dot overlay is not touched. -/
def updateData (st : ChartStatic) (s : ChartState) (newData : List Record) : ChartState :=
  { data := newData
    yDomain := niceDomainJS (preNiceDomain newData)
    regions := uniqueFirst (newData.map (fun d => d.region))
    flatData := chartFlatten st.years newData
    iDelaunay := JSIdx.inull
    dotsVisible := s.dotsVisible
    dots := s.dots
    lineOpacity := newData.map (fun d =>
      ((d.region, d.nutrient), lookupOpacity s.lineOpacity (d.region, d.nutrient))) }

/-- handleMouseEnter (script.js lines 390-392): only reveal the dot
group. -/
def handleMouseEnter (s : ChartState) : ChartState :=
  { s with dotsVisible := true }

/-- handleMouseLeave (script.js lines 445-448): set every line opacity
attribute to 1 and hide the dot group. -/
def handleMouseLeave (s : ChartState) : ChartState :=
  { s with
    lineOpacity := s.lineOpacity.map (fun e => (e.1, some (1 : ℚ)))
    dotsVisible := false }

/-- Index of a year in the year list (Array.indexOf: none for the -1 not
found result; a NaN year is never found). -/
def yearIndex (years : List ℚ) (y : JSNum) : Option ℕ :=
  match y with
  | some x => years.findIdx? (fun z => z = x)
  | none => none

/-- values[iYear]: undefined (NaN downstream) for the -1 index or out of
range. -/
def valueAt (vs : List JSNum) (iY : Option ℕ) : JSNum :=
  match iY with
  | none => none
  | some j =>
    match vs.get? j with
    | some v => v
    | none => none

/-- The result of one mousemove dispatch: the state after the handler,
whether the handler threw, and whether the overlay was rewritten. -/
structure MoveOutcome where
  state : ChartState
  threw : Bool
  overlayUpdated : Bool
deriving DecidableEq

/-- The body of handleMouseMove once a new index was found (script.js
lines 399-442): iDelaunay is assigned first; destructuring flatData at an
invalid index throws with the assignment already performed; otherwise the
lines of the matched nutrient are kept at full opacity and the others
dimmed, and the dot overlay is rebuilt for the matched nutrient at the
matched year. -/
def applyHit (st : ChartStatic) (s : ChartState) (i : JSIdx) : MoveOutcome :=
  match i with
  | JSIdx.inum k =>
    match s.flatData.get? k with
    | some e =>
      let year := e.1
      let nutrient := e.2.2
      let highlighted := s.data.filter (fun d => d.nutrient = nutrient)
      let iYear := yearIndex st.years year
      let newDots := highlighted.map (fun d =>
        { region := d.region
          nutrient := d.nutrient
          x := xScaleJS st year
          y := yScaleJS s.yDomain (valueAt d.values iYear)
          text := valueAt d.values iYear
          fill := colorAssign s.regions d.region })
      let newOpacity := s.lineOpacity.map (fun p =>
        (p.1, some (if p.1.2 = nutrient then (1 : ℚ) else 1 / 10)))
      { state := { s with iDelaunay := i, lineOpacity := newOpacity, dots := newDots }
        threw := false
        overlayUpdated := true }
    | none => { state := { s with iDelaunay := i }, threw := true, overlayUpdated := false }
  | _ => { state := { s with iDelaunay := i }, threw := true, overlayUpdated := false }

/-- handleMouseMove (script.js lines 394-443): query the nearest sample,
seeded with the previous match; if the result is strictly unequal to the
remembered one, rewrite the highlight, otherwise do nothing. -/
def handleMouseMove (st : ChartStatic) (s : ChartState) (q : ℚ × ℚ) : MoveOutcome :=
  let i := delaunayFind (projPts st s) q (seedOf s.iDelaunay)
  if jsNeqIdx i s.iDelaunay then applyHit st s i
  else { state := s, threw := false, overlayUpdated := false }

/-- Default row for safe indexing in statements. -/
def defaultRow : RawRow := ⟨"", "", "", []⟩

/-- Default record for safe indexing in statements. -/
def defaultRecord : Record := ⟨"", "", "", []⟩

/-! ## General helper lemmas -/

lemma getDMap {α β : Type} (f : α → β) (l : List α) (j : ℕ) (hj : j < l.length)
    (a : α) (b : β) : (l.map f).getD j b = f (l.getD j a) := by
  induction l generalizing j with
  | nil => simp at hj
  | cons x xs ih =>
    cases j with
    | zero => simp
    | succ n =>
      simp only [List.map_cons, List.getD_cons_succ]
      exact ih n (by simpa using hj)

lemma getDRange (n i : ℕ) (hi : i < n) (d : ℕ) : (List.range n).getD i d = i := by
  rw [List.getD_eq_get?, List.get?_range hi]
  rfl

lemma yScaleJS_none (dom : JSNum × JSNum) : yScaleJS dom none = none := by
  obtain ⟨a, b⟩ := dom
  cases a <;> cases b <;> rfl

lemma filterPred_iff (f : Filters) (d : Record) :
    (if f.nutrientType ≠ d.nutrientType then false
     else if d.region ∉ f.regions then false else true) = true ↔
      f.nutrientType = d.nutrientType ∧ d.region ∈ f.regions := by
  by_cases h1 : f.nutrientType = d.nutrientType <;>
    by_cases h2 : d.region ∈ f.regions <;> simp [h1, h2]

/-! ## C4: the filter evaluator -/

/-- C4: the filter evaluator returns exactly the records whose nutrient
type equals the selected one and whose region is among the selected
regions (membership and multiplicity), and its output is a sublist of the
input, so the relative order of the input is preserved; as a pure
function of its arguments it does not mutate the input. -/
theorem filterData_exact (data : List Record) (f : Filters) :
    (∀ r, r ∈ filterData data f ↔
      r ∈ data ∧ f.nutrientType = r.nutrientType ∧ r.region ∈ f.regions) ∧
    List.Sublist (filterData data f) data ∧
    (∀ r, (filterData data f).count r =
      if f.nutrientType = r.nutrientType ∧ r.region ∈ f.regions
      then data.count r else 0) := by
  refine ⟨fun r => ?_, List.filter_sublist data, fun r => ?_⟩
  · rw [filterData, List.mem_filter, filterPred_iff]
  · by_cases hp : f.nutrientType = r.nutrientType ∧ r.region ∈ f.regions
    · rw [if_pos hp, filterData]
      exact List.count_filter ((filterPred_iff f r).mpr hp)
    · rw [if_neg hp]
      refine List.count_eq_zero.mpr (fun hmem => hp ?_)
      exact ((List.mem_filter.mp hmem).2 |> (filterPred_iff f r).mp)

/-! ## C5: pointer enter and leave -/

/-- C5 (amended): entering the chart surface only reveals the overlay; the
markers it last contained and the remembered match index are retained, not
cleared (both are reset only by data updates); leaving restores every
line opacity attribute to 1, keyed as before, and hides the overlay,
again retaining its markers and the match index. -/
theorem enterLeave_overlay (s : ChartState) :
    (handleMouseEnter s).dotsVisible = true ∧
    (handleMouseEnter s).dots = s.dots ∧
    (handleMouseEnter s).iDelaunay = s.iDelaunay ∧
    (handleMouseEnter s).lineOpacity = s.lineOpacity ∧
    (handleMouseEnter s).data = s.data ∧
    (handleMouseEnter s).flatData = s.flatData ∧
    (handleMouseLeave s).dotsVisible = false ∧
    (handleMouseLeave s).dots = s.dots ∧
    (handleMouseLeave s).iDelaunay = s.iDelaunay ∧
    (handleMouseLeave s).lineOpacity.map Prod.fst = s.lineOpacity.map Prod.fst ∧
    (∀ e ∈ (handleMouseLeave s).lineOpacity, e.2 = some (1 : ℚ)) := by
  refine ⟨rfl, rfl, rfl, rfl, rfl, rfl, rfl, rfl, rfl, ?_, ?_⟩
  · simp [handleMouseLeave, List.map_map, Function.comp]
  · intro e he
    simp only [handleMouseLeave, List.mem_map] at he
    obtain ⟨p, _, hp⟩ := he
    rw [← hp]

def c5static : ChartStatic := ⟨610, [2008, 2009]⟩

def c5rec : Record := ⟨"Vitamin", "VitA", "North", [some 100, some 110]⟩

/-- The state after: data update, pointer enter, one pointer move (which
highlights and fills the overlay), pointer leave, pointer re-enter. -/
def c5reentered : ChartState :=
  handleMouseEnter (handleMouseLeave
    (handleMouseMove c5static
      (handleMouseEnter (updateData c5static initialState [c5rec])) (100, 300)).state)

/-- C5 counterexample: on re-entry after an interaction the overlay is
visible but neither empty nor without a prior match index — the claim
that entering makes the overlay initially empty with no prior index is
false for this concrete event trace. -/
theorem c5_reenter_stale :
    c5reentered.dotsVisible = true ∧
    ¬(c5reentered.dots = [] ∧ c5reentered.iDelaunay = JSIdx.inull) := by
  with_unfolding_all decide

/-! ## C6: empty visible subset -/

def c6static : ChartStatic := ⟨610, [2008, 2009]⟩

def c6empty : ChartState := updateData c6static initialState []

/-- C6 (code bug): updateData accepts the empty visible subset and draws
no series paths, but the first subsequent pointer move throws: the
nearest-sample query on an empty sample set yields an invalid index and
destructuring flatData at it fails, where the spec requires a graceful
no-highlight no-error outcome. -/
theorem empty_subset_mousemove_throws :
    c6empty.data = [] ∧ c6empty.flatData = [] ∧
    c6empty.data.map (fun d => linePathPoints c6static c6empty.yDomain d) = [] ∧
    (handleMouseMove c6static c6empty (400, 300)).threw = true ∧
    (handleMouseMove c6static c6empty (400, 300)).overlayUpdated = false := by
  decide

/-! ## C7: non-numeric cells degrade to the NaN sentinel -/

/-- C7: the normalizer is total and coerces every year cell; a cell whose
coercion fails becomes the NaN sentinel in the record values, and the
point sequence handed to the line generator carries a NaN y coordinate at
that index (a gap, not a crash). -/
theorem normalizer_nan_gap (years : List String) (csv : List RawRow)
    (st : ChartStatic) (dom : JSNum × JSNum) (j i : ℕ)
    (hj : j < csv.length) (hi : i < years.length)
    (hbad : jsToNumber ((csv.getD j defaultRow).cells.getD i none) = none) :
    (processDataRecords years csv).length = csv.length ∧
    ((processDataRecords years csv).getD j defaultRecord).values.length = years.length ∧
    ((processDataRecords years csv).getD j defaultRecord).values.getD i (some 0) = none ∧
    ((linePathPoints st dom ((processDataRecords years csv).getD j defaultRecord)).getD i
      ((none : JSNum), (none : JSNum))).2 = none := by
  have hrec : (processDataRecords years csv).getD j defaultRecord =
      { nutrientType := (csv.getD j defaultRow).rowType
        nutrient := (csv.getD j defaultRow).nutrient
        region := (csv.getD j defaultRow).region
        values := (List.range years.length).map
          (fun i => jsToNumber ((csv.getD j defaultRow).cells.getD i none)) } := by
    rw [processDataRecords, getDMap _ csv j hj defaultRow]
  have hlen : ((processDataRecords years csv).getD j defaultRecord).values.length =
      years.length := by
    rw [hrec]; simp
  have hval : ∀ d : JSNum,
      ((processDataRecords years csv).getD j defaultRecord).values.getD i d = none := by
    intro d
    rw [hrec]
    simp only
    rw [getDMap _ _ i (by simpa using hi) 0, getDRange _ _ hi, hbad]
  refine ⟨by simp [processDataRecords], hlen, hval _, ?_⟩
  rw [linePathPoints, hlen]
  rw [getDMap _ _ i (by simpa using hi) 0, getDRange _ _ hi]
  simp only
  rw [hval, yScaleJS_none]

def c7years : List String := ["2008", "2009"]

def c7csv : List RawRow := [⟨"Vitamin", "VitA", "North", [some "abc", some "101"]⟩]

def c7static : ChartStatic := ⟨610, [2008, 2009]⟩

def c7dom : JSNum × JSNum := (some 90, some 110)

/-- Witness for C7 at a concrete malformed cell. -/
theorem normalizer_nan_gap_witness :
    ((0 : ℕ) < c7csv.length ∧ (0 : ℕ) < c7years.length ∧
      jsToNumber ((c7csv.getD 0 defaultRow).cells.getD 0 none) = none) ∧
    ((processDataRecords c7years c7csv).length = c7csv.length ∧
    ((processDataRecords c7years c7csv).getD 0 defaultRecord).values.length = c7years.length ∧
    ((processDataRecords c7years c7csv).getD 0 defaultRecord).values.getD 0 (some 0) = none ∧
    ((linePathPoints c7static c7dom
        ((processDataRecords c7years c7csv).getD 0 defaultRecord)).getD 0
      ((none : JSNum), (none : JSNum))).2 = none) :=
  ⟨⟨by decide, by decide, by with_unfolding_all decide⟩,
    normalizer_nan_gap c7years c7csv c7static c7dom 0 0 (by decide) (by decide)
      (by with_unfolding_all decide)⟩

/-! ## C9: series colours -/

/-- C9 (amended): the colour domain is rebuilt on every data update as the
regions of the visible data in order of first appearance; the palette is
assigned by position, so two distinct visible regions get the two distinct
palette colours, and a region keeps its colour across updates exactly
while the rebuilt region list is unchanged (not merely while it stays
selected). -/
theorem colorAssign_positional (st1 st2 : ChartStatic) (s1 s2 : ChartState)
    (d1 d2 : List Record) (r : String)
    (h : (updateData st1 s1 d1).regions = (updateData st2 s2 d2).regions) :
    (updateData st1 s1 d1).regions = uniqueFirst (d1.map (fun d => d.region)) ∧
    colorAssign (updateData st1 s1 d1).regions r =
      colorAssign (updateData st2 s2 d2).regions r ∧
    (∀ r1 r2, (updateData st1 s1 d1).regions = [r1, r2] → r1 ≠ r2 →
      colorAssign (updateData st1 s1 d1).regions r1 = "#1f77b4" ∧
      colorAssign (updateData st1 s1 d1).regions r2 = "#ff7f0e" ∧
      colorAssign (updateData st1 s1 d1).regions r1 ≠
        colorAssign (updateData st1 s1 d1).regions r2) := by
  refine ⟨rfl, by rw [h], ?_⟩
  intro r1 r2 hr hne
  rw [hr]
  have h1 : colorAssign [r1, r2] r1 = "#1f77b4" := by
    simp [colorAssign, List.findIdx?_cons, COLOR_SCHEME]
  have h2 : colorAssign [r1, r2] r2 = "#ff7f0e" := by
    simp [colorAssign, List.findIdx?_cons, COLOR_SCHEME, hne]
  refine ⟨h1, h2, ?_⟩
  rw [h1, h2]
  decide

def c9static : ChartStatic := ⟨610, [2008, 2009]⟩

def c9recN : Record := ⟨"V", "N1", "North", [some 100, some 102]⟩

def c9recS : Record := ⟨"V", "N2", "South", [some 104, some 106]⟩

/-- C9 counterexample: with North and South visible the South series is
orange; after an update in which South alone stays visible (South is still
selected) the South series becomes blue — the colour mapping is not
stable for a region that remains selected. -/
theorem c9_color_not_stable :
    colorAssign (updateData c9static initialState [c9recN, c9recS]).regions "South" =
      "#ff7f0e" ∧
    colorAssign (updateData c9static
        (updateData c9static initialState [c9recN, c9recS]) [c9recS]).regions "South" =
      "#1f77b4" ∧
    ("#ff7f0e" : String) ≠ "#1f77b4" := by
  decide

/-- Witness for C9 at concrete equal region lists. -/
theorem colorAssign_positional_witness :
    ((updateData c9static initialState [c9recN, c9recS]).regions =
      (updateData c9static initialState [c9recN, c9recS]).regions) ∧
    ((updateData c9static initialState [c9recN, c9recS]).regions =
      uniqueFirst ([c9recN, c9recS].map (fun d => d.region)) ∧
    colorAssign (updateData c9static initialState [c9recN, c9recS]).regions "South" =
      colorAssign (updateData c9static initialState [c9recN, c9recS]).regions "South" ∧
    (∀ r1 r2, (updateData c9static initialState [c9recN, c9recS]).regions = [r1, r2] →
      r1 ≠ r2 →
      colorAssign (updateData c9static initialState [c9recN, c9recS]).regions r1 =
        "#1f77b4" ∧
      colorAssign (updateData c9static initialState [c9recN, c9recS]).regions r2 =
        "#ff7f0e" ∧
      colorAssign (updateData c9static initialState [c9recN, c9recS]).regions r1 ≠
        colorAssign (updateData c9static initialState [c9recN, c9recS]).regions r2)) :=
  ⟨rfl, colorAssign_positional c9static c9static initialState initialState
    [c9recN, c9recS] [c9recN, c9recS] "South" rfl⟩

/-! ## C2: label de-collision -/

/-- The label walk on plain rationals; the NaN-free projection of
labelPass used to reason about it. -/
def labelPassQ (c : ℚ) : List ℚ → List ℚ
  | [] => []
  | y :: ys => min (c - 12) y :: labelPassQ (min (c - 12) y) ys

lemma labelPass_map_some (c : ℚ) (ys : List ℚ) :
    labelPass (some c) (ys.map some) = (labelPassQ c ys).map some := by
  induction ys generalizing c with
  | nil => rfl
  | cons y ys ih => simp [labelPass, labelPassQ, jsMin2, jsSub, ih]

lemma labelPassQ_length (c : ℚ) (ys : List ℚ) : (labelPassQ c ys).length = ys.length := by
  induction ys generalizing c with
  | nil => rfl
  | cons y ys ih => simp [labelPassQ, ih]

lemma labelPassQ_zero (c y : ℚ) (ys : List ℚ) :
    (labelPassQ c (y :: ys)).getD 0 0 = min (c - 12) y := by
  simp [labelPassQ]

lemma labelPassQ_succ (c : ℚ) (ys : List ℚ) (i : ℕ) (h : i + 1 < ys.length) :
    (labelPassQ c ys).getD (i + 1) 0 =
      min ((labelPassQ c ys).getD i 0 - 12) (ys.getD (i + 1) 0) := by
  induction ys generalizing c i with
  | nil => simp at h
  | cons y ys ih =>
    cases i with
    | zero =>
      cases ys with
      | nil => simp at h
      | cons z zs => simp [labelPassQ]
    | succ n =>
      simp only [labelPassQ, List.getD_cons_succ]
      exact ih _ n (by simpa using h)

lemma labelPassQ_le_natural (c : ℚ) (ys : List ℚ) (i : ℕ) (h : i < ys.length) :
    (labelPassQ c ys).getD i 0 ≤ ys.getD i 0 := by
  induction ys generalizing c i with
  | nil => simp at h
  | cons y ys ih =>
    cases i with
    | zero => simpa [labelPassQ] using min_le_right (c - 12) y
    | succ n =>
      simp only [labelPassQ, List.getD_cons_succ]
      exact ih _ n (by simpa using h)

/-- The sort key order: ascending in the final value. -/
def leKey (a b : Record) : Prop := (lastVal a).getD 0 ≤ (lastVal b).getD 0

lemma jsLtB_some (x y : ℚ) : jsLtB (some x) (some y) = true ↔ x < y := by
  simp [jsLtB]

lemma insertByFinal_perm (a : Record) (l : List Record) :
    (insertByFinal a l).Perm (a :: l) := by
  induction l with
  | nil => exact List.Perm.refl _
  | cons b l ih =>
    by_cases hb : jsLtB (lastVal b) (lastVal a) = true
    · rw [insertByFinal, if_pos hb]
      exact (ih.cons b).trans (List.Perm.swap a b l)
    · rw [insertByFinal, if_neg hb]

lemma mem_insertByFinal {x a : Record} {l : List Record} :
    x ∈ insertByFinal a l ↔ x = a ∨ x ∈ l := by
  rw [(insertByFinal_perm a l).mem_iff, List.mem_cons]

lemma insertByFinal_pairwise (a : Record) (l : List Record)
    (ha : (lastVal a).isSome = true) (hl : ∀ x ∈ l, (lastVal x).isSome = true)
    (h : List.Pairwise leKey l) : List.Pairwise leKey (insertByFinal a l) := by
  induction l with
  | nil => simpa [insertByFinal] using List.Pairwise.nil
  | cons b l ih =>
    obtain ⟨qa, hqa⟩ := Option.isSome_iff_exists.mp ha
    obtain ⟨qb, hqb⟩ := Option.isSome_iff_exists.mp (hl b (by simp))
    by_cases hb : jsLtB (lastVal b) (lastVal a) = true
    · rw [insertByFinal, if_pos hb]
      refine List.Pairwise.cons ?_ (ih (fun x hx => hl x (by simp [hx])) h.of_cons)
      intro x hx
      rcases mem_insertByFinal.mp hx with hxa | hxl
      · subst hxa
        rw [hqa, hqb] at hb
        have := (jsLtB_some qb qa).mp hb
        simp [leKey, hqa, hqb]
        exact this.le
      · exact (List.pairwise_cons.mp h).1 x hxl
    · rw [insertByFinal, if_neg hb]
      refine List.Pairwise.cons ?_ h
      intro x hx
      rw [hqa, hqb] at hb
      have hab : qa ≤ qb := by
        by_contra hcon
        exact hb ((jsLtB_some qb qa).mpr (lt_of_not_le hcon))
      rcases List.mem_cons.mp hx with hxb | hxl
      · subst hxb
        simp [leKey, hqa, hqb, hab]
      · obtain ⟨qx, hqx⟩ := Option.isSome_iff_exists.mp (hl x (by simp [hxl]))
        have hbx : leKey b x := (List.pairwise_cons.mp h).1 x hxl
        simp only [leKey, hqa, hqb, hqx, Option.getD_some] at *
        exact hab.trans hbx

lemma sortByFinal_perm (l : List Record) : (sortByFinal l).Perm l := by
  induction l with
  | nil => exact List.Perm.refl _
  | cons a l ih => exact (insertByFinal_perm a (sortByFinal l)).trans (ih.cons a)

lemma sortByFinal_pairwise (l : List Record)
    (hsome : ∀ d ∈ l, (lastVal d).isSome = true) :
    List.Pairwise leKey (sortByFinal l) := by
  induction l with
  | nil => exact List.Pairwise.nil
  | cons a l ih =>
    refine insertByFinal_pairwise a (sortByFinal l) (hsome a (by simp)) ?_
      (ih (fun d hd => hsome d (by simp [hd])))
    intro x hx
    exact hsome x (by simp [(sortByFinal_perm l).mem_iff.mp hx])

/-- C2: the label pass sorts the visible series ascending by final value
(a permutation, pairwise ordered) and renders each label at
min(previous - 12, natural); consequently adjacent labels are at least 12
pixels apart, no label moves below its natural position, and an
uncrowded label (one whose natural position already clears the previous
label by 12 pixels, the first label clearing the chart bottom) stays at
its natural position. -/
theorem label_decollision (data : List Record) (dom : JSNum × JSNum) (naturals : List ℚ)
    (hsome : ∀ d ∈ data, (lastVal d).isSome = true)
    (hnat : (sortByFinal data).map (fun d => yScaleJS dom (lastVal d)) = naturals.map some) :
    (sortByFinal data).Perm data ∧
    List.Pairwise leKey (sortByFinal data) ∧
    ∃ rendered : List ℚ,
      labelPass (some chartHeight)
          ((sortByFinal data).map (fun d => yScaleJS dom (lastVal d))) =
        rendered.map some ∧
      rendered.length = naturals.length ∧
      (∀ i, i + 1 < rendered.length →
        rendered.getD (i + 1) 0 ≤ rendered.getD i 0 - 12) ∧
      (∀ i, i < rendered.length → rendered.getD i 0 ≤ naturals.getD i 0) ∧
      (∀ i, i + 1 < rendered.length →
        naturals.getD (i + 1) 0 ≤ rendered.getD i 0 - 12 →
        rendered.getD (i + 1) 0 = naturals.getD (i + 1) 0) ∧
      (0 < rendered.length → naturals.getD 0 0 ≤ chartHeight - 12 →
        rendered.getD 0 0 = naturals.getD 0 0) := by
  refine ⟨sortByFinal_perm data, sortByFinal_pairwise data hsome,
    labelPassQ chartHeight naturals, ?_, labelPassQ_length _ _, ?_, ?_, ?_, ?_⟩
  · rw [hnat, labelPass_map_some]
  · intro i hi
    rw [labelPassQ_length] at hi
    rw [labelPassQ_succ _ _ i hi]
    exact min_le_left _ _
  · intro i hi
    rw [labelPassQ_length] at hi
    exact labelPassQ_le_natural _ _ i hi
  · intro i hi hle
    rw [labelPassQ_length] at hi
    rw [labelPassQ_succ _ _ i hi]
    exact min_eq_right hle
  · intro hlen h0
    rw [labelPassQ_length] at hlen
    cases naturals with
    | nil => simp at hlen
    | cons y ys =>
      rw [labelPassQ_zero, List.getD_cons_zero]
      exact min_eq_right (by simpa using h0)

def c2dataW : List Record := [⟨"V", "A", "North", [some 104]⟩, ⟨"V", "B", "South", [some 100]⟩]

def c2domW : JSNum × JSNum := (some 90, some 360)

def c2natW : List ℚ := [550, 542]

set_option maxRecDepth 4000 in
/-- Witness for C2: two series with final values 100 and 104, eight pixels
apart under the given scale; the lower label stays at 550 and the upper is
pushed to 538, exactly 12 pixels away. -/
theorem label_decollision_witness :
    ((∀ d ∈ c2dataW, (lastVal d).isSome = true) ∧
      (sortByFinal c2dataW).map (fun d => yScaleJS c2domW (lastVal d)) = c2natW.map some) ∧
    ((sortByFinal c2dataW).Perm c2dataW ∧
    List.Pairwise leKey (sortByFinal c2dataW) ∧
    ∃ rendered : List ℚ,
      labelPass (some chartHeight)
          ((sortByFinal c2dataW).map (fun d => yScaleJS c2domW (lastVal d))) =
        rendered.map some ∧
      rendered.length = c2natW.length ∧
      (∀ i, i + 1 < rendered.length →
        rendered.getD (i + 1) 0 ≤ rendered.getD i 0 - 12) ∧
      (∀ i, i < rendered.length → rendered.getD i 0 ≤ c2natW.getD i 0) ∧
      (∀ i, i + 1 < rendered.length →
        c2natW.getD (i + 1) 0 ≤ rendered.getD i 0 - 12 →
        rendered.getD (i + 1) 0 = c2natW.getD (i + 1) 0) ∧
      (0 < rendered.length → c2natW.getD 0 0 ≤ chartHeight - 12 →
        rendered.getD 0 0 = c2natW.getD 0 0)) :=
  ⟨⟨by decide, by with_unfolding_all decide⟩,
    label_decollision c2dataW c2domW c2natW (by decide) (by with_unfolding_all decide)⟩

/-! ## C3: the y domain -/

/-- All numeric values of the visible records, in order. -/
def visibleVals (data : List Record) : List ℚ :=
  ((data.map (fun d => d.values)).flatten).filterMap id

lemma foldlMin_mem (x : ℚ) (xs : List ℚ) : xs.foldl min x ∈ x :: xs := by
  induction xs generalizing x with
  | nil => simp
  | cons a xs ih =>
    simp only [List.foldl_cons]
    rcases List.mem_cons.mp (ih (min x a)) with h | h
    · rcases min_cases x a with ⟨he, _⟩ | ⟨he, _⟩ <;> rw [h, he] <;> simp
    · simp [h]

lemma foldlMin_le (x : ℚ) (xs : List ℚ) : ∀ y ∈ x :: xs, xs.foldl min x ≤ y := by
  induction xs generalizing x with
  | nil =>
    intro y hy
    simp only [List.mem_singleton] at hy
    simp [hy]
  | cons a xs ih =>
    intro y hy
    simp only [List.foldl_cons]
    have hmin : xs.foldl min (min x a) ≤ min x a := ih (min x a) _ (by simp)
    rcases List.mem_cons.mp hy with h | h
    · exact h ▸ hmin.trans (min_le_left x a)
    · rcases List.mem_cons.mp h with h2 | h2
      · exact h2 ▸ hmin.trans (min_le_right x a)
      · exact ih (min x a) y (by simp [h2])

lemma foldlMax_mem (x : ℚ) (xs : List ℚ) : xs.foldl max x ∈ x :: xs := by
  induction xs generalizing x with
  | nil => simp
  | cons a xs ih =>
    simp only [List.foldl_cons]
    rcases List.mem_cons.mp (ih (max x a)) with h | h
    · rcases max_cases x a with ⟨he, _⟩ | ⟨he, _⟩ <;> rw [h, he] <;> simp
    · simp [h]

lemma foldlMax_ge (x : ℚ) (xs : List ℚ) : ∀ y ∈ x :: xs, y ≤ xs.foldl max x := by
  induction xs generalizing x with
  | nil =>
    intro y hy
    simp only [List.mem_singleton] at hy
    simp [hy]
  | cons a xs ih =>
    intro y hy
    simp only [List.foldl_cons]
    have hmax : max x a ≤ xs.foldl max (max x a) := ih (max x a) _ (by simp)
    rcases List.mem_cons.mp hy with h | h
    · exact h ▸ (le_max_left x a).trans hmax
    · rcases List.mem_cons.mp h with h2 | h2
      · exact h2 ▸ (le_max_right x a).trans hmax
      · exact ih (max x a) y (by simp [h2])

lemma d3Min_some {l : List JSNum} {m : ℚ} (h : d3Min l = some m) :
    m ∈ l.filterMap id ∧ ∀ x ∈ l.filterMap id, m ≤ x := by
  rcases hf : l.filterMap id with _ | ⟨x, xs⟩
  · rw [d3Min, hf] at h
    exact absurd h (by simp)
  · rw [d3Min, hf, Option.some_inj] at h
    subst h
    exact ⟨hf ▸ foldlMin_mem x xs, fun y hy => foldlMin_le x xs y (hf ▸ hy)⟩

lemma d3Min_exists {l : List JSNum} (h : l.filterMap id ≠ []) :
    ∃ m, d3Min l = some m := by
  rcases hf : l.filterMap id with _ | ⟨x, xs⟩
  · exact absurd hf h
  · exact ⟨xs.foldl min x, by rw [d3Min, hf]⟩

lemma d3Max_some {l : List JSNum} {m : ℚ} (h : d3Max l = some m) :
    m ∈ l.filterMap id ∧ ∀ x ∈ l.filterMap id, x ≤ m := by
  rcases hf : l.filterMap id with _ | ⟨x, xs⟩
  · rw [d3Max, hf] at h
    exact absurd h (by simp)
  · rw [d3Max, hf, Option.some_inj] at h
    subst h
    exact ⟨hf ▸ foldlMax_mem x xs, fun y hy => foldlMax_ge x xs y (hf ▸ hy)⟩

lemma d3Max_exists {l : List JSNum} (h : l.filterMap id ≠ []) :
    ∃ m, d3Max l = some m := by
  rcases hf : l.filterMap id with _ | ⟨x, xs⟩
  · exact absurd hf h
  · exact ⟨xs.foldl max x, by rw [d3Max, hf]⟩

lemma mem_visibleVals {data : List Record} {v : ℚ} :
    v ∈ visibleVals data ↔ ∃ d ∈ data, some v ∈ d.values := by
  simp only [visibleVals, List.mem_filterMap, id_eq, List.mem_flatten, List.mem_map]
  constructor
  · rintro ⟨a, ⟨s, ⟨d, hd, rfl⟩, has⟩, rfl⟩
    exact ⟨d, hd, has⟩
  · rintro ⟨d, hd, hv⟩
    exact ⟨some v, ⟨d.values, ⟨d, hd, rfl⟩, hv⟩, rfl⟩

lemma d3MinData_spec (data : List Record) (hne : visibleVals data ≠ []) :
    ∃ m, d3Min (data.map (fun d => d3Min d.values)) = some m ∧
      m ∈ visibleVals data ∧ ∀ v ∈ visibleVals data, m ≤ v := by
  obtain ⟨v0, hv0⟩ := List.exists_mem_of_ne_nil _ hne
  obtain ⟨d0, hd0, hv0d⟩ := mem_visibleVals.mp hv0
  have hfd0 : d0.values.filterMap id ≠ [] := by
    intro hcon
    have : v0 ∈ d0.values.filterMap id := by simp [List.mem_filterMap, hv0d]
    rw [hcon] at this
    simp at this
  obtain ⟨m0, hm0⟩ := d3Min_exists hfd0
  have houter : (data.map (fun d => d3Min d.values)).filterMap id ≠ [] := by
    intro hcon
    have : m0 ∈ (data.map (fun d => d3Min d.values)).filterMap id := by
      simp only [List.mem_filterMap, id_eq, List.mem_map]
      exact ⟨d3Min d0.values, ⟨d0, hd0, rfl⟩, hm0⟩
    rw [hcon] at this
    simp at this
  obtain ⟨m, hm⟩ := d3Min_exists houter
  obtain ⟨hmmem, hmle⟩ := d3Min_some hm
  refine ⟨m, hm, ?_, ?_⟩
  · simp only [List.mem_filterMap, id_eq, List.mem_map] at hmmem
    obtain ⟨a, ⟨d, hd, ha⟩, ham⟩ := hmmem
    have hdm : d3Min d.values = some m := by rw [ha, ham]
    obtain ⟨hmem2, _⟩ := d3Min_some hdm
    exact mem_visibleVals.mpr ⟨d, hd, by
      simpa [List.mem_filterMap] using hmem2⟩
  · intro v hv
    obtain ⟨d, hd, hvd⟩ := mem_visibleVals.mp hv
    have hfd : d.values.filterMap id ≠ [] := by
      intro hcon
      have : v ∈ d.values.filterMap id := by simp [List.mem_filterMap, hvd]
      rw [hcon] at this
      simp at this
    obtain ⟨md, hmd⟩ := d3Min_exists hfd
    obtain ⟨_, hmdle⟩ := d3Min_some hmd
    have h1 : m ≤ md := by
      refine hmle md ?_
      simp only [List.mem_filterMap, id_eq, List.mem_map]
      exact ⟨d3Min d.values, ⟨d, hd, rfl⟩, hmd⟩
    exact h1.trans (hmdle v (by simp [List.mem_filterMap, hvd]))

lemma d3MaxData_spec (data : List Record) (hne : visibleVals data ≠ []) :
    ∃ m, d3Max (data.map (fun d => d3Max d.values)) = some m ∧
      m ∈ visibleVals data ∧ ∀ v ∈ visibleVals data, v ≤ m := by
  obtain ⟨v0, hv0⟩ := List.exists_mem_of_ne_nil _ hne
  obtain ⟨d0, hd0, hv0d⟩ := mem_visibleVals.mp hv0
  have hfd0 : d0.values.filterMap id ≠ [] := by
    intro hcon
    have : v0 ∈ d0.values.filterMap id := by simp [List.mem_filterMap, hv0d]
    rw [hcon] at this
    simp at this
  obtain ⟨m0, hm0⟩ := d3Max_exists hfd0
  have houter : (data.map (fun d => d3Max d.values)).filterMap id ≠ [] := by
    intro hcon
    have : m0 ∈ (data.map (fun d => d3Max d.values)).filterMap id := by
      simp only [List.mem_filterMap, id_eq, List.mem_map]
      exact ⟨d3Max d0.values, ⟨d0, hd0, rfl⟩, hm0⟩
    rw [hcon] at this
    simp at this
  obtain ⟨m, hm⟩ := d3Max_exists houter
  obtain ⟨hmmem, hmle⟩ := d3Max_some hm
  refine ⟨m, hm, ?_, ?_⟩
  · simp only [List.mem_filterMap, id_eq, List.mem_map] at hmmem
    obtain ⟨a, ⟨d, hd, ha⟩, ham⟩ := hmmem
    have hdm : d3Max d.values = some m := by rw [ha, ham]
    obtain ⟨hmem2, _⟩ := d3Max_some hdm
    exact mem_visibleVals.mpr ⟨d, hd, by
      simpa [List.mem_filterMap] using hmem2⟩
  · intro v hv
    obtain ⟨d, hd, hvd⟩ := mem_visibleVals.mp hv
    have hfd : d.values.filterMap id ≠ [] := by
      intro hcon
      have : v ∈ d.values.filterMap id := by simp [List.mem_filterMap, hvd]
      rw [hcon] at this
      simp at this
    obtain ⟨md, hmd⟩ := d3Max_exists hfd
    obtain ⟨_, hmdge⟩ := d3Max_some hmd
    have h1 : md ≤ m := by
      refine hmle md ?_
      simp only [List.mem_filterMap, id_eq, List.mem_map]
      exact ⟨d3Max d.values, ⟨d, hd, rfl⟩, hmd⟩
    exact (hmdge v (by simp [List.mem_filterMap, hvd])).trans h1

/-- C3: on a data update with at least one numeric visible value, the
y domain before nice rounding is exactly (min(90, least visible value),
greatest visible value), and the state stores that pair passed through
the d3 nice rounding; in particular with every visible value at least 95
the lower bound clamps to 90, and with 60 the least visible value (the
spec scenario range 60..140) the lower bound is 60. -/
theorem yDomain_clamped (st : ChartStatic) (s : ChartState) (data : List Record)
    (hne : visibleVals data ≠ []) :
    ∃ lo hi,
      preNiceDomain data = (some lo, some hi) ∧
      lo ≤ 90 ∧ (∀ v ∈ visibleVals data, lo ≤ v) ∧
      (lo = 90 ∨ lo ∈ visibleVals data) ∧
      (∀ v ∈ visibleVals data, v ≤ hi) ∧ hi ∈ visibleVals data ∧
      (updateData st s data).yDomain = niceDomainJS (preNiceDomain data) ∧
      ((∀ v ∈ visibleVals data, 95 ≤ v) → lo = 90) ∧
      (((60 : ℚ) ∈ visibleVals data ∧ ∀ v ∈ visibleVals data, 60 ≤ v) → lo = 60) := by
  obtain ⟨m, hm, hmmem, hmle⟩ := d3MinData_spec data hne
  obtain ⟨M, hM, hMmem, hMge⟩ := d3MaxData_spec data hne
  refine ⟨min 90 m, M, ?_, min_le_left 90 m, ?_, ?_, hMge, hMmem, rfl, ?_, ?_⟩
  · rw [preNiceDomain, hm, hM]
    rfl
  · exact fun v hv => (min_le_right 90 m).trans (hmle v hv)
  · rcases min_cases (90 : ℚ) m with ⟨he, _⟩ | ⟨he, _⟩
    · exact Or.inl he
    · exact Or.inr (by rw [he]; exact hmmem)
  · intro h95
    have : (95 : ℚ) ≤ m := h95 m hmmem
    exact min_eq_left (by linarith)
  · rintro ⟨h60mem, h60le⟩
    have h1 : m ≤ 60 := hmle 60 h60mem
    have h2 : (60 : ℚ) ≤ m := h60le m hmmem
    have h3 : m = 60 := le_antisymm h1 h2
    rw [h3]
    norm_num [min_eq_right]

def c3dataW : List Record := [⟨"Vitamin", "VitA", "North", [some 60, some 140]⟩]

def c3static : ChartStatic := ⟨610, [2008, 2009]⟩

/-- Witness for C3 on the spec scenario with visible value range 60..140. -/
theorem yDomain_clamped_witness :
    (visibleVals c3dataW ≠ []) ∧
    (∃ lo hi,
      preNiceDomain c3dataW = (some lo, some hi) ∧
      lo ≤ 90 ∧ (∀ v ∈ visibleVals c3dataW, lo ≤ v) ∧
      (lo = 90 ∨ lo ∈ visibleVals c3dataW) ∧
      (∀ v ∈ visibleVals c3dataW, v ≤ hi) ∧ hi ∈ visibleVals c3dataW ∧
      (updateData c3static initialState c3dataW).yDomain =
        niceDomainJS (preNiceDomain c3dataW) ∧
      ((∀ v ∈ visibleVals c3dataW, 95 ≤ v) → lo = 90) ∧
      (((60 : ℚ) ∈ visibleVals c3dataW ∧ ∀ v ∈ visibleVals c3dataW, 60 ≤ v) → lo = 60)) :=
  ⟨by with_unfolding_all decide,
    yDomain_clamped c3static initialState c3dataW (by with_unfolding_all decide)⟩

/-! ## C1 and C10: the nearest-sample query -/

lemma findBest_lt (q : ℚ × ℚ) (ps : List (JSNum × JSNum)) (i best : ℕ) (dbest : JSNum)
    (hb : best < i) : findBest q ps i best dbest < i + ps.length := by
  induction ps generalizing i best dbest with
  | nil => simpa [findBest] using hb
  | cons p ps ih =>
    rw [findBest]
    by_cases h : jsLtB (dist2JS q p) dbest = true
    · rw [if_pos h]
      have := ih (i + 1) i (dist2JS q p) (Nat.lt_succ_self i)
      simp only [List.length_cons]
      omega
    · rw [if_neg h]
      have := ih (i + 1) best dbest (hb.trans (Nat.lt_succ_self i))
      simp only [List.length_cons]
      omega

lemma delaunayFind_inbounds (pts : List (JSNum × JSNum)) (q : ℚ × ℚ) (seed : ℕ)
    (h : pts ≠ []) :
    ∃ k, delaunayFind pts q seed = JSIdx.inum k ∧ k < pts.length := by
  cases pts with
  | nil => exact absurd rfl h
  | cons p ps =>
    refine ⟨findBest q ps 1 0 (dist2JS q p), rfl, ?_⟩
    have := findBest_lt q ps 1 0 (dist2JS q p) Nat.one_pos
    simp only [List.length_cons]
    omega

lemma dist2_self (a : ℚ × ℚ) : dist2 a a = 0 := by
  simp [dist2]

lemma dist2_nonneg (a b : ℚ × ℚ) : 0 ≤ dist2 a b := by
  have h1 := sq_nonneg (a.1 - b.1)
  have h2 := sq_nonneg (a.2 - b.2)
  simp only [dist2]
  linarith

lemma dist2_eq_zero {a b : ℚ × ℚ} (h : dist2 a b = 0) : b = a := by
  have h1 := sq_nonneg (a.1 - b.1)
  have h2 := sq_nonneg (a.2 - b.2)
  have e1 : (a.1 - b.1) ^ 2 = 0 := by simp only [dist2] at h; linarith
  have e2 : (a.2 - b.2) ^ 2 = 0 := by simp only [dist2] at h; linarith
  have f1 : a.1 - b.1 = 0 := by
    exact pow_eq_zero_iff (two_ne_zero) |>.mp e1
  have f2 : a.2 - b.2 = 0 := by
    exact pow_eq_zero_iff (two_ne_zero) |>.mp e2
  exact Prod.ext (by linarith) (by linarith)

lemma findBest_go (q : ℚ × ℚ) (all : List (ℚ × ℚ)) (ps : List (ℚ × ℚ)) :
    ∀ (i best : ℕ) (dbest : ℚ),
      (∀ m : ℕ, ps.get? m = all.get? (i + m)) →
      i + ps.length = all.length →
      best < i →
      dbest = dist2 q (all.getD best (0, 0)) →
      (∀ j, j < i → dbest ≤ dist2 q (all.getD j (0, 0))) →
      (∀ j, j < best → dbest < dist2 q (all.getD j (0, 0))) →
      findBest q (ps.map (fun p => ((some p.1 : JSNum), (some p.2 : JSNum)))) i best
          (some dbest) < all.length ∧
      (∀ j, j < all.length →
        dist2 q (all.getD (findBest q
            (ps.map (fun p => ((some p.1 : JSNum), (some p.2 : JSNum)))) i best
            (some dbest)) (0, 0)) ≤ dist2 q (all.getD j (0, 0))) ∧
      (∀ j, j < findBest q
          (ps.map (fun p => ((some p.1 : JSNum), (some p.2 : JSNum)))) i best
          (some dbest) →
        dist2 q (all.getD (findBest q
            (ps.map (fun p => ((some p.1 : JSNum), (some p.2 : JSNum)))) i best
            (some dbest)) (0, 0)) < dist2 q (all.getD j (0, 0))) := by
  induction ps with
  | nil =>
    intro i best dbest _ hlen hb hd hle hlt
    simp only [List.length_nil, Nat.add_zero] at hlen
    simp only [List.map_nil, findBest]
    refine ⟨by omega, fun j hj => ?_, fun j hj => ?_⟩
    · rw [← hd]
      exact hle j (by omega)
    · rw [← hd]
      exact hlt j hj
  | cons p ps ih =>
    intro i best dbest hget hlen hb hd hle hlt
    have hallI : all.getD i (0, 0) = p := by
      have h0 := hget 0
      simp only [List.get?_cons_zero, Nat.add_zero] at h0
      rw [List.getD_eq_get?, ← h0]
      rfl
    have hIlt : i < all.length := by
      simp only [List.length_cons] at hlen
      omega
    have hdJS : dist2JS q ((some p.1 : JSNum), (some p.2 : JSNum)) = some (dist2 q p) := rfl
    have hget' : ∀ m : ℕ, ps.get? m = all.get? (i + 1 + m) := by
      intro m
      have harith : i + 1 + m = i + (m + 1) := by omega
      rw [harith]
      have := hget (m + 1)
      simpa using this
    have hlen' : i + 1 + ps.length = all.length := by
      simp only [List.length_cons] at hlen
      omega
    simp only [List.map_cons, findBest, hdJS]
    by_cases hc : dist2 q p < dbest
    · have hcond : jsLtB (some (dist2 q p)) (some dbest) = true := by
        simp [jsLtB, hc]
      rw [if_pos hcond]
      refine ih (i + 1) i (dist2 q p) hget' hlen' (Nat.lt_succ_self i)
        (by rw [hallI]) ?_ ?_
      · intro j hj
        rcases Nat.lt_succ_iff_lt_or_eq.mp hj with hji | hji
        · exact (le_of_lt hc).trans (hle j hji)
        · subst hji
          rw [hallI]
      · intro j hj
        exact lt_of_lt_of_le hc (hle j hj)
    · have hcond : ¬(jsLtB (some (dist2 q p)) (some dbest) = true) := by
        simp [jsLtB, hc]
      rw [if_neg hcond]
      refine ih (i + 1) best dbest hget' hlen' (hb.trans (Nat.lt_succ_self i))
        hd ?_ hlt
      intro j hj
      rcases Nat.lt_succ_iff_lt_or_eq.mp hj with hji | hji
      · exact hle j hji
      · subst hji
        rw [hallI]
        exact le_of_not_lt hc

/-- C1 (amended): on a non-empty sample set the hit test returns, for any
seed, the index of a Euclidean-nearest sample; on ties (equal squared
distance) the lowest index wins, so exactly one deterministic sample is
selected; and querying at the exact pixel position of a sample returns
that sample provided no other sample shares its exact position. -/
theorem delaunayFind_nearest (pts : List (ℚ × ℚ)) (q : ℚ × ℚ) (seed : ℕ)
    (hne : pts ≠ []) :
    ∃ k, delaunayFind (pts.map (fun p => ((some p.1 : JSNum), (some p.2 : JSNum)))) q seed =
        JSIdx.inum k ∧
      k < pts.length ∧
      (∀ j, j < pts.length → dist2 q (pts.getD k (0, 0)) ≤ dist2 q (pts.getD j (0, 0))) ∧
      (∀ j, j < k → dist2 q (pts.getD k (0, 0)) < dist2 q (pts.getD j (0, 0))) ∧
      (∀ j, j < pts.length → pts.getD j (0, 0) = q →
        (∀ j2, j2 < pts.length → j2 ≠ j → pts.getD j2 (0, 0) ≠ q) → k = j) := by
  cases pts with
  | nil => exact absurd rfl hne
  | cons p0 rest =>
    have hd0 : dist2JS q ((some p0.1 : JSNum), (some p0.2 : JSNum)) = some (dist2 q p0) := rfl
    have hmain := findBest_go q (p0 :: rest) rest 1 0 (dist2 q p0)
      (fun m => by simp [Nat.add_comm 1 m])
      (by simp [Nat.add_comm])
      Nat.one_pos
      (by simp)
      (fun j hj => by
        interval_cases j
        simp)
      (fun j hj => by omega)
    obtain ⟨hk1, hk2, hk3⟩ := hmain
    refine ⟨_, ?_, hk1, hk2, hk3, ?_⟩
    · simp only [List.map_cons, delaunayFind, hd0]
    · intro j hj hjq huniq
      set k := findBest q
        (rest.map (fun p => ((some p.1 : JSNum), (some p.2 : JSNum)))) 1 0
        (some (dist2 q p0)) with hkdef
      have hle0 : dist2 q ((p0 :: rest).getD k (0, 0)) ≤ 0 := by
        have := hk2 j hj
        rw [hjq, dist2_self] at this
        exact this
      have heq0 : dist2 q ((p0 :: rest).getD k (0, 0)) = 0 :=
        le_antisymm hle0 (dist2_nonneg q _)
      have hkq : (p0 :: rest).getD k (0, 0) = q := dist2_eq_zero heq0
      by_contra hkj
      exact huniq k hk1 hkj hkq

def c1pts : List (JSNum × JSNum) := [(some 10, some 20), (some 10, some 20)]

/-- C1 counterexample: two flattened samples can share the same pixel
position; querying at the exact position of sample 1 returns sample 0,
so the clause that querying at the exact pixel coordinate of a known
sample returns that sample is false as universally stated. -/
theorem c1_duplicate_position :
    c1pts.getD 1 (none, none) = (some 10, some 20) ∧
    delaunayFind c1pts (10, 20) 0 = JSIdx.inum 0 ∧
    delaunayFind c1pts (10, 20) 0 ≠ JSIdx.inum 1 := by
  with_unfolding_all decide

def c1ptsW : List (ℚ × ℚ) := [(30, 300), (430, 30)]

/-- Witness for C1 on two concrete projected samples. -/
theorem delaunayFind_nearest_witness :
    (c1ptsW ≠ []) ∧
    (∃ k, delaunayFind (c1ptsW.map (fun p => ((some p.1 : JSNum), (some p.2 : JSNum))))
        (100, 300) 0 = JSIdx.inum k ∧
      k < c1ptsW.length ∧
      (∀ j, j < c1ptsW.length →
        dist2 (100, 300) (c1ptsW.getD k (0, 0)) ≤ dist2 (100, 300) (c1ptsW.getD j (0, 0))) ∧
      (∀ j, j < k →
        dist2 (100, 300) (c1ptsW.getD k (0, 0)) < dist2 (100, 300) (c1ptsW.getD j (0, 0))) ∧
      (∀ j, j < c1ptsW.length → c1ptsW.getD j (0, 0) = (100, 300) →
        (∀ j2, j2 < c1ptsW.length → j2 ≠ j → c1ptsW.getD j2 (0, 0) ≠ (100, 300)) →
        k = j)) :=
  ⟨by decide, delaunayFind_nearest c1ptsW (100, 300) 0 (by decide)⟩

lemma rangeMap_eq_zipMap (ys : List ℚ) (vs : List JSNum) (nu : String)
    (h : vs.length = ys.length) :
    (List.range vs.length).map
        (fun i => ((ys.get? i : JSNum), vs.getD i none, nu)) =
      (ys.zip vs).map (fun p => ((some p.1 : JSNum), p.2, nu)) := by
  induction vs generalizing ys with
  | nil =>
    cases ys with
    | nil => rfl
    | cons y ys => simp at h
  | cons v vs ih =>
    cases ys with
    | nil => simp at h
    | cons y ys =>
      have h' : vs.length = ys.length := by simpa using h
      simp only [List.length_cons, List.range_succ_eq_map, List.map_cons, List.map_map,
        List.zip_cons_cons]
      refine congrArg₂ List.cons rfl ?_
      rw [← ih ys h']
      refine List.map_congr_left ?_
      intro i _
      simp [Function.comp]

lemma chartFlatten_length (years : List ℚ) (data : List Record)
    (hlen : ∀ d ∈ data, d.values.length = years.length) :
    (chartFlatten years data).length = data.length * years.length := by
  induction data with
  | nil => simp [chartFlatten]
  | cons d ds ih =>
    have htail := ih (fun e he => hlen e (by simp [he]))
    simp only [chartFlatten, List.map_cons, List.flatten_cons, List.length_append,
      List.length_map, List.length_range, List.length_cons] at htail ⊢
    rw [hlen d (by simp), htail]
    ring

/-- C10: after a data update with a non-empty record set whose series all
span the year domain, the flattened sample list is exactly one entry per
record and year, record-major and year-minor; its length is the product of
the two counts; the remembered match index is reset to null; and the
nearest-sample query over the rebuilt projection always returns an
in-bounds index into the current sample list. -/
theorem flatten_rebuild (st : ChartStatic) (s : ChartState) (data : List Record)
    (hd : data ≠ []) (hy : st.years ≠ [])
    (hlen : ∀ d ∈ data, d.values.length = st.years.length) :
    (updateData st s data).flatData =
      (data.map (fun d => (st.years.zip d.values).map
        (fun p => ((some p.1 : JSNum), p.2, d.nutrient)))).flatten ∧
    (updateData st s data).flatData.length = data.length * st.years.length ∧
    (updateData st s data).iDelaunay = JSIdx.inull ∧
    (∀ q seed, ∃ k,
      delaunayFind (projPts st (updateData st s data)) q seed = JSIdx.inum k ∧
      k < (updateData st s data).flatData.length) := by
  have hflat : (updateData st s data).flatData = chartFlatten st.years data := rfl
  have heq : chartFlatten st.years data =
      (data.map (fun d => (st.years.zip d.values).map
        (fun p => ((some p.1 : JSNum), p.2, d.nutrient)))).flatten := by
    rw [chartFlatten]
    refine congrArg List.flatten (List.map_congr_left ?_)
    intro d hdm
    exact rangeMap_eq_zipMap st.years d.values d.nutrient (hlen d hdm)
  have hne : (updateData st s data).flatData ≠ [] := by
    rw [hflat, chartFlatten]
    cases data with
    | nil => exact absurd rfl hd
    | cons d0 ds =>
      simp only [List.map_cons, List.flatten_cons, ne_eq, List.append_eq_nil,
        List.map_eq_nil_iff, List.range_eq_nil, not_and]
      intro hv
      rw [hlen d0 (by simp)] at hv
      exact absurd (List.length_eq_zero.mp hv) hy
  refine ⟨hflat.trans heq, hflat ▸ chartFlatten_length st.years data hlen, rfl, ?_⟩
  intro q seed
  have hpne : projPts st (updateData st s data) ≠ [] := by
    rw [projPts, ne_eq, List.map_eq_nil_iff]
    exact hne
  obtain ⟨k, hk, hklt⟩ := delaunayFind_inbounds _ q seed hpne
  refine ⟨k, hk, ?_⟩
  rw [projPts, List.length_map] at hklt
  exact hklt

def c10static : ChartStatic := ⟨610, [2008, 2009]⟩

def c10data : List Record :=
  [⟨"Vitamin", "VitA", "North", [some 100, some 110]⟩,
   ⟨"Vitamin", "VitB", "North", [some 95, some 98]⟩]

/-- Witness for C10 at a concrete two-record, two-year update. -/
theorem flatten_rebuild_witness :
    (c10data ≠ [] ∧ c10static.years ≠ [] ∧
      (∀ d ∈ c10data, d.values.length = c10static.years.length)) ∧
    ((updateData c10static initialState c10data).flatData =
      (c10data.map (fun d => (c10static.years.zip d.values).map
        (fun p => ((some p.1 : JSNum), p.2, d.nutrient)))).flatten ∧
    (updateData c10static initialState c10data).flatData.length =
      c10data.length * c10static.years.length ∧
    (updateData c10static initialState c10data).iDelaunay = JSIdx.inull ∧
    (∀ q seed, ∃ k,
      delaunayFind (projPts c10static (updateData c10static initialState c10data)) q seed =
        JSIdx.inum k ∧
      k < (updateData c10static initialState c10data).flatData.length)) :=
  ⟨⟨by decide, by decide, by decide⟩,
    flatten_rebuild c10static initialState c10data (by decide) (by decide) (by decide)⟩

/-! ## C8: repeated pointer position is a no-op -/

lemma delaunayFind_seed (pts : List (JSNum × JSNum)) (q : ℚ × ℚ) (s1 s2 : ℕ) :
    delaunayFind pts q s1 = delaunayFind pts q s2 := by
  cases pts <;> rfl

lemma jsNeqIdx_inum_self (k : ℕ) : jsNeqIdx (JSIdx.inum k) (JSIdx.inum k) = false := by
  simp [jsNeqIdx]

lemma projPts_congr (st : ChartStatic) {s1 s2 : ChartState}
    (hf : s1.flatData = s2.flatData) (hy : s1.yDomain = s2.yDomain) :
    projPts st s1 = projPts st s2 := by
  rw [projPts, projPts, hf, hy]

lemma applyHit_fields (st : ChartStatic) (s : ChartState) (i : JSIdx) :
    (applyHit st s i).state.flatData = s.flatData ∧
    (applyHit st s i).state.yDomain = s.yDomain ∧
    (applyHit st s i).state.iDelaunay = i := by
  cases i with
  | inull => simp [applyHit]
  | inan => simp [applyHit]
  | inum k =>
    cases hk : s.flatData[k]? with
    | none => simp [applyHit, hk]
    | some e => simp [applyHit, hk]

lemma applyHit_threw (st : ChartStatic) (s : ChartState) (i : JSIdx)
    (h : (applyHit st s i).threw = false) : ∃ k, i = JSIdx.inum k := by
  cases i with
  | inull => simp [applyHit] at h
  | inan => simp [applyHit] at h
  | inum k => exact ⟨k, rfl⟩

/-- C8: if a pointer move did not throw, issuing the same pointer position
again finds the same sample index, which equals the remembered one, so the
handler performs no overlay update, leaves the state untouched, and does
not throw. -/
theorem mousemove_noop (st : ChartStatic) (s : ChartState) (q : ℚ × ℚ)
    (h : (handleMouseMove st s q).threw = false) :
    (handleMouseMove st (handleMouseMove st s q).state q).overlayUpdated = false ∧
    (handleMouseMove st (handleMouseMove st s q).state q).state =
      (handleMouseMove st s q).state ∧
    (handleMouseMove st (handleMouseMove st s q).state q).threw = false := by
  by_cases hb :
    jsNeqIdx (delaunayFind (projPts st s) q (seedOf s.iDelaunay)) s.iDelaunay = true
  · have e1 : handleMouseMove st s q =
        applyHit st s (delaunayFind (projPts st s) q (seedOf s.iDelaunay)) := by
      simp only [handleMouseMove]
      rw [if_pos hb]
    set s1 := (handleMouseMove st s q).state with hs1
    obtain ⟨k, hk⟩ :=
      applyHit_threw st s (delaunayFind (projPts st s) q (seedOf s.iDelaunay))
        (by rw [e1] at h; exact h)
    obtain ⟨hf, hy, hi⟩ :=
      applyHit_fields st s (delaunayFind (projPts st s) q (seedOf s.iDelaunay))
    have hproj : projPts st s1 = projPts st s := by
      rw [hs1, e1]
      exact projPts_congr st hf hy
    have hi1 : s1.iDelaunay = JSIdx.inum k := by
      rw [hs1, e1, hi, hk]
    have hi2 : delaunayFind (projPts st s1) q (seedOf s1.iDelaunay) = JSIdx.inum k := by
      rw [hproj, delaunayFind_seed _ q _ (seedOf s.iDelaunay), ← hk]
    have hneq2 : ¬(jsNeqIdx (delaunayFind (projPts st s1) q (seedOf s1.iDelaunay))
        s1.iDelaunay = true) := by
      rw [hi2, hi1, jsNeqIdx_inum_self]
      simp
    have e2 : handleMouseMove st s1 q = ⟨s1, false, false⟩ := by
      simp only [handleMouseMove]
      rw [if_neg hneq2]
    rw [e2]
    exact ⟨rfl, rfl, rfl⟩
  · have e1 : handleMouseMove st s q = ⟨s, false, false⟩ := by
      simp only [handleMouseMove]
      rw [if_neg hb]
    have e2 : handleMouseMove st (handleMouseMove st s q).state q = ⟨s, false, false⟩ := by
      rw [e1]
      exact e1
    rw [e2, e1]
    exact ⟨rfl, rfl, rfl⟩

def c8static : ChartStatic := ⟨610, [2008, 2009]⟩

def c8state : ChartState :=
  updateData c8static initialState [⟨"Vitamin", "VitA", "North", [some 100, some 110]⟩]

/-- Witness for C8 on a concrete state and pointer position. -/
theorem mousemove_noop_witness :
    ((handleMouseMove c8static c8state (100, 300)).threw = false) ∧
    ((handleMouseMove c8static
        (handleMouseMove c8static c8state (100, 300)).state (100, 300)).overlayUpdated =
      false ∧
    (handleMouseMove c8static
        (handleMouseMove c8static c8state (100, 300)).state (100, 300)).state =
      (handleMouseMove c8static c8state (100, 300)).state ∧
    (handleMouseMove c8static
        (handleMouseMove c8static c8state (100, 300)).state (100, 300)).threw = false) :=
  ⟨by with_unfolding_all decide,
    mousemove_noop c8static c8state (100, 300) (by with_unfolding_all decide)⟩

end NutriViz
